import Mathlib

/-!
Verification development for the resource-teardown sweep of the
`ml-hackathon` notebook (`src/sample-notebook.ipynb`, cleanup cell).

The sweep enumerates models, per model enumerates versions, deletes the
non-default versions (mutating the `versions` list while iterating over it),
polls the resulting operations in fixed 5-second rounds (again mutating the
pending list while iterating), then deletes `versions[0]` as the default
version, polls those operations, and finally deletes every model.

The embedding below mirrors the Python cell:
* Python dicts for API responses become structures whose `Option` fields
  record key presence (`none` = key absent);
* Python's `for x in l: ... l.remove(x)` becomes index-based recursion with
  `List.erase` (remove first occurrence), the exact CPython semantics;
* exceptions (`KeyError`, `IndexError`, the `NameError` from the undefined
  variable `error` in `print(error)`) become an `Except` error type;
* `time.sleep(5)` advances an explicit clock by 5;
* the two unbounded `while` loops take a fuel parameter; exhausting fuel is
  reported as a distinguished `fuelOut` outcome, never as normal termination.
-/

namespace MLSweep

/-- A version dict: `name` plus the `isDefault` key, `none` when the key is
absent from the dict (the sweep tests key *presence*, not the value). -/
structure Version where
  name : String
  isDefault : Option Bool
deriving DecidableEq, Repr

/-- A model dict: the sweep only reads `model["name"]`. -/
structure Model where
  name : String
deriving DecidableEq, Repr

/-- Python exceptions the cleanup cell can raise, plus `fuelOut`, the
modelling artifact marking that a `while` loop was cut off by fuel. -/
inductive PyError where
  | keyError
  | indexError
  | nameError
  | fuelOut
deriving DecidableEq, Repr

/-- Observable requests issued by the sweep, in program order:
a version-delete request, an operation-status check (`operations().get`),
a 5-second sleep, and a model-delete request. -/
inductive Event where
  | deleteVersion (vname : String)
  | checkOp (op : String)
  | sleep
  | deleteModel (mname : String)
deriving DecidableEq, Repr

/-- `projects().models().list` response: `models` is `none` when the
`"models"` key is absent. -/
structure ModelsResponse where
  models : Option (List Model)
deriving DecidableEq, Repr

/-- `versions().list` response: `versions` is `none` when the `"versions"`
key is absent. -/
structure VersionsResponse where
  versions : Option (List Version)
deriving DecidableEq, Repr

/-- A delete response payload: optional `"error"` key and optional `"name"`
key (the operation handle). -/
structure DeleteResponse where
  error : Option String
  name : Option String
deriving DecidableEq, Repr

/-- `operations().get` response: `done` is `none` when the `"done"` key is
absent, `some b` when the key is present with value `b`. -/
structure OperationResponse where
  done : Option Bool
deriving DecidableEq, Repr

/-- `get_models`: `return response["models"]` — raises `KeyError` when the
key is absent. -/
def get_models (r : ModelsResponse) : Except PyError (List Model) :=
  match r.models with
  | some ms => .ok ms
  | none => .error .keyError

/-- `get_versions`: `return response["versions"]` — raises `KeyError` when
the key is absent. -/
def get_versions (r : VersionsResponse) : Except PyError (List Version) :=
  match r.versions with
  | some vs => .ok vs
  | none => .error .keyError

/-- `delete_version`: prints the version name, executes the delete, then
`if "error" in response: print(error)` — `error` is an undefined name, so
this path raises `NameError`; otherwise `return response["name"]`, a
`KeyError` when the `"name"` key is absent.  Returns the printed lines
paired with the outcome. -/
def delete_version (vname : String) (r : DeleteResponse) :
    List String × Except PyError String :=
  (["Deleting version:  " ++ vname],
    if (r.error).isSome then .error .nameError
    else
      match r.name with
      | some op => .ok op
      | none => .error .keyError)

/-- `delete_model`: prints the model name, executes the delete, then
`if "error" in response: print(error)` — the same undefined-name
`NameError`; returns `None` (here `Unit`) on the error-free path. -/
def delete_model (mname : String) (r : DeleteResponse) :
    List String × Except PyError Unit :=
  (["Deleting model:  " ++ mname],
    if (r.error).isSome then .error .nameError
    else .ok ())

/-- `is_version_deleted`: `if "done" in response: return True else False` —
a key-*presence* test on `"done"`, ignoring the value. -/
def is_version_deleted (r : OperationResponse) : Bool :=
  (r.done).isSome

/-- Spec-side reading of "the get-operation response reports completion":
the long-running-operation contract sets `done` to `true` exactly when the
operation has completed (`done` false or unset means still in progress). -/
def reportsCompletion (r : OperationResponse) : Bool :=
  r.done == some true

/-- Python `lst[i]`: `IndexError` when the index is out of range. -/
def pyIndex {α : Type} (l : List α) (i : Nat) : Except PyError α :=
  match l.get? i with
  | some x => .ok x
  | none => .error .indexError

instance {ε α : Type} [DecidableEq ε] [DecidableEq α] : DecidableEq (Except ε α)
  | .error a, .error b => decidable_of_iff (a = b) (by simp)
  | .error _, .ok _ => isFalse (by simp)
  | .ok _, .error _ => isFalse (by simp)
  | .ok a, .ok b => decidable_of_iff (a = b) (by simp)

/-- The external management API, as seen by the cleanup cell: the
`models.list` response, the per-model `versions.list` response, the
delete-response for a version name, the delete-response for a model name,
and the `operations.get` response (its optional `done` value) at a given
clock time for a given operation handle. -/
structure Api where
  models : Option (List Model)
  versions : String → Option (List Version)
  vdel : String → DeleteResponse
  mdel : String → DeleteResponse
  opDone : Nat → String → Option Bool

/-- The sweep's call `delete_version(version)` against the API. -/
def deleteVersionCall (api : Api) (v : Version) : Except PyError String :=
  (delete_version v.name (api.vdel v.name)).2

/-- The sweep's call `delete_model(model)` against the API. -/
def deleteModelCall (api : Api) (m : Model) : Except PyError Unit :=
  (delete_model m.name (api.mdel m.name)).2

/-- The sweep's call `is_version_deleted(op)` at clock time `t`. -/
def checkOpCall (api : Api) (t : Nat) (op : String) : Bool :=
  is_version_deleted ⟨api.opDone t op⟩

/-- The inner `for version in versions:` loop of the sweep:

    for version in versions:
        if "isDefault" not in version:
            versions.remove(version)
            deletions_in_progress.append(delete_version(version))

CPython iterates by an internal index; `list.remove(x)` deletes the first
occurrence equal to `x` (`List.erase`), shifting later elements left while
the index still advances.  `versionScan i l acc` returns the final state of
the mutated `versions` list and the versions passed to `delete_version`, in
call order (`acc` is the part already collected). -/
def versionScan (i : Nat) (l : List Version) (acc : List Version) :
    List Version × List Version :=
  if h : i < l.length then
    if ((l.get ⟨i, h⟩).isDefault).isSome then
      versionScan (i + 1) l acc
    else
      versionScan (i + 1) (l.erase (l.get ⟨i, h⟩)) (acc ++ [l.get ⟨i, h⟩])
  else
    (l, acc)
termination_by l.length - i
decreasing_by
  all_goals try omega
  all_goals
    have := List.length_erase_le (l.get ⟨i, h⟩) l
    omega

/-- One polling round,

    for d in pending:
        if is_version_deleted(d):
            pending.remove(d)

with the same CPython iterate-while-mutating semantics as `versionScan`.
Returns the pending list after the round and the status-check events the
round issued (one `checkOp` per handle actually examined). -/
def pollRound (done : String → Bool) (i : Nat) (l : List String)
    (evs : List Event) : List String × List Event :=
  if h : i < l.length then
    if done (l.get ⟨i, h⟩) then
      pollRound done (i + 1) (l.erase (l.get ⟨i, h⟩))
        (evs ++ [Event.checkOp (l.get ⟨i, h⟩)])
    else
      pollRound done (i + 1) l (evs ++ [Event.checkOp (l.get ⟨i, h⟩)])
  else
    (l, evs)
termination_by l.length - i
decreasing_by
  all_goals try omega
  all_goals
    have := List.length_erase_le (l.get ⟨i, h⟩) l
    omega

/-- The `while len(pending) > 0:` loop: sleep 5 seconds, then run one
polling round against the operation statuses at the new clock time, until
the pending list is empty.  `fuel` bounds the number of rounds the model
will execute; `none` means the loop was still running when fuel ran out.
On success: the final clock time and the `sleep`/`checkOp` events in
order. -/
def pollLoop (doneAt : Nat → String → Bool) :
    Nat → Nat → List String → Option (Nat × List Event)
  | _, t, [] => some (t, [])
  | 0, _, _ :: _ => none
  | fuel + 1, t, x :: xs =>
    let r := pollRound (doneAt (t + 5)) 0 (x :: xs) []
    match pollLoop doneAt fuel (t + 5) r.1 with
    | none => none
    | some (t', evs') => some (t', (Event.sleep :: r.2) ++ evs')

/-- The successive `delete_version` calls made while the scan runs, folded
over the versions it removed (in call order).  Returns the operation
handles appended to `deletions_in_progress`; the first raised exception
aborts the sweep. -/
def deleteVersions (api : Api) : List Version → Except PyError (List String)
  | [] => .ok []
  | v :: rest =>
    match deleteVersionCall api v with
    | .error e => .error e
    | .ok op =>
      match deleteVersions api rest with
      | .error e => .error e
      | .ok ops => .ok (op :: ops)

/-- The body of `for model in models:` for one model whose `versions` list
is `vs`: scan-and-delete the non-default versions, poll those operations
until done, then `delete_version(versions[0])`.  On success: the clock
time when the model's polling finished, the events in order, and the
operation handle of the final (`versions[0]`) deletion, which the sweep
appends to `default_version_deletions`. -/
def processModel (api : Api) (fuel t : Nat) (vs : List Version) :
    Except PyError (Nat × List Event × String) :=
  match deleteVersions api (versionScan 0 vs []).2 with
  | .error e => .error e
  | .ok ops =>
    match pollLoop (checkOpCall api) fuel t ops with
    | none => .error .fuelOut
    | some (t', pollEvs) =>
      match pyIndex (versionScan 0 vs []).1 0 with
      | .error e => .error e
      | .ok v0 =>
        match deleteVersionCall api v0 with
        | .error e => .error e
        | .ok op0 =>
          .ok (t', ((versionScan 0 vs []).2.map
              (fun v => Event.deleteVersion v.name) ++ pollEvs)
              ++ [Event.deleteVersion v0.name], op0)

/-- The outer `for model in models:` loop, threading the clock and
collecting `default_version_deletions` in order.  Raises `KeyError` when a
model's `versions.list` response lacks the `"versions"` key. -/
def processModels (api : Api) (fuel : Nat) :
    List Model → Nat → Except PyError (Nat × List Event × List String)
  | [], t => .ok (t, [], [])
  | m :: rest, t =>
    match api.versions m.name with
    | none => .error .keyError
    | some vs =>
      match processModel api fuel t vs with
      | .error e => .error e
      | .ok (t', evs, op0) =>
        match processModels api fuel rest t' with
        | .error e => .error e
        | .ok (t'', evs', ops) => .ok (t'', evs ++ evs', op0 :: ops)

/-- The final `for model in models: delete_model(model)` loop; each call
can raise the `NameError` of the `print(error)` path. -/
def deleteModels (api : Api) : List Model → Except PyError (List Event)
  | [] => .ok []
  | m :: rest =>
    match deleteModelCall api m with
    | .error e => .error e
    | .ok _ =>
      match deleteModels api rest with
      | .error e => .error e
      | .ok evs => .ok (Event.deleteModel m.name :: evs)

/-- The whole cleanup cell: `models = get_models(project)`, the per-model
version teardown, the final poll over `default_version_deletions`, then
the model deletions.  On success: the final clock time and the complete
event trace. -/
def runSweep (api : Api) (fuel : Nat) : Except PyError (Nat × List Event) :=
  match api.models with
  | none => .error .keyError
  | some models =>
    match processModels api fuel models 0 with
    | .error e => .error e
    | .ok (t, evs, defOps) =>
      match pollLoop (checkOpCall api) fuel t defOps with
      | none => .error .fuelOut
      | some (t', pollEvs) =>
        match deleteModels api models with
        | .error e => .error e
        | .ok mEvs => .ok (t', (evs ++ pollEvs) ++ mEvs)

/-- `delete_version` depends on the version dict only through its name;
this is the per-name view of a version-delete request against the API. -/
def deleteVersionByName (api : Api) (vn : String) : Except PyError String :=
  (delete_version vn (api.vdel vn)).2

/-- Recognizer for version-delete request events. -/
def isDeleteVersionEv : Event → Bool
  | .deleteVersion _ => true
  | _ => false

/-- Recognizer for model-delete request events. -/
def isDeleteModelEv : Event → Bool
  | .deleteModel _ => true
  | _ => false

/-- Mock API: one model `"m"` with three versions of which exactly the
last (`"v3"`) carries the `isDefault` key; every delete succeeds and every
operation is already done when first polled. -/
def apiThreeVersions : Api where
  models := some [⟨"m"⟩]
  versions := fun _ => some [⟨"v1", none⟩, ⟨"v2", none⟩, ⟨"v3", some true⟩]
  vdel := fun n => ⟨none, some ("op-" ++ n)⟩
  mdel := fun _ => ⟨none, none⟩
  opDone := fun _ _ => some true

/-- Mock API for the spec's concrete scenario: model `"clf_add_to_cart"`
whose only version `"v1"` carries the `isDefault` key. -/
def apiSingleDefault : Api where
  models := some [⟨"clf_add_to_cart"⟩]
  versions := fun _ => some [⟨"v1", some true⟩]
  vdel := fun n => ⟨none, some ("op-" ++ n)⟩
  mdel := fun _ => ⟨none, none⟩
  opDone := fun _ _ => some true

/-- Mock API: one model `"m"` with versions `[nd, d]`; operations complete
from clock time 10 on. -/
def apiLateDone : Api where
  models := some [⟨"m"⟩]
  versions := fun _ => some [⟨"v1", none⟩, ⟨"v2", some true⟩]
  vdel := fun n => ⟨none, some ("op-" ++ n)⟩
  mdel := fun _ => ⟨none, none⟩
  opDone := fun t _ => if 10 ≤ t then some true else none

/-- Mock API whose `models.list` response lacks the `"models"` key. -/
def apiNoModelsKey : Api where
  models := none
  versions := fun _ => none
  vdel := fun _ => ⟨none, none⟩
  mdel := fun _ => ⟨none, none⟩
  opDone := fun _ _ => none

/-- Mock API listing one model whose `versions.list` response lacks the
`"versions"` key. -/
def apiNoVersionsKey : Api where
  models := some [⟨"m"⟩]
  versions := fun _ => none
  vdel := fun n => ⟨none, some n⟩
  mdel := fun _ => ⟨none, none⟩
  opDone := fun _ _ => none

/-- Mock API: one model `"m"` with a single default version `"v1"`, whose
get-operation responses always carry `done` with value `false` — the API
forever reporting every operation still in progress, never completed. -/
def apiAlwaysFalseDone : Api where
  models := some [⟨"m"⟩]
  versions := fun _ => some [⟨"v1", some true⟩]
  vdel := fun n => ⟨none, some ("op-" ++ n)⟩
  mdel := fun _ => ⟨none, none⟩
  opDone := fun _ _ => some false

theorem pollRound_subset (done : String → Bool) (i : Nat) (l : List String)
    (evs : List Event) (x : String) (hx : x ∈ (pollRound done i l evs).1) :
    x ∈ l := by
  induction i, l, evs using pollRound.induct done with
  | case1 i l evs h hd ih =>
    rw [pollRound, dif_pos h, if_pos hd] at hx
    exact (List.erase_subset _ _) (ih hx)
  | case2 i l evs h hd ih =>
    rw [pollRound, dif_pos h, if_neg hd] at hx
    exact ih hx
  | case3 i l evs h =>
    rw [pollRound, dif_neg h] at hx
    exact hx

theorem pollRound_done_of_removed (done : String → Bool) (i : Nat)
    (l : List String) (evs : List Event) (x : String) (hx : x ∈ l)
    (hout : x ∉ (pollRound done i l evs).1) : done x = true := by
  induction i, l, evs using pollRound.induct done with
  | case1 i l evs h hd ih =>
    rw [pollRound, dif_pos h, if_pos hd] at hout
    by_cases hxe : x = l.get ⟨i, h⟩
    · rw [hxe]
      exact hd
    · exact ih ((List.mem_erase_of_ne hxe).2 hx) hout
  | case2 i l evs h hd ih =>
    rw [pollRound, dif_pos h, if_neg hd] at hout
    exact ih hx hout
  | case3 i l evs h =>
    rw [pollRound, dif_neg h] at hout
    exact absurd hx hout

theorem pollRound_mem_of_not_done (done : String → Bool) (i : Nat)
    (l : List String) (evs : List Event) (x : String) (hx : x ∈ l)
    (hnd : done x = false) : x ∈ (pollRound done i l evs).1 := by
  by_contra hout
  rw [pollRound_done_of_removed done i l evs x hx hout] at hnd
  cases hnd

theorem pollRound_events (done : String → Bool) (i : Nat) (l : List String)
    (evs : List Event) (e : Event) (he : e ∈ (pollRound done i l evs).2) :
    e ∈ evs ∨ ∃ op, e = Event.checkOp op := by
  induction i, l, evs using pollRound.induct done with
  | case1 i l evs h hd ih =>
    rw [pollRound, dif_pos h, if_pos hd] at he
    rcases ih he with hin | hop
    · rcases List.mem_append.1 hin with hin' | hin'
      · exact .inl hin'
      · exact .inr ⟨_, List.mem_singleton.1 hin'⟩
    · exact .inr hop
  | case2 i l evs h hd ih =>
    rw [pollRound, dif_pos h, if_neg hd] at he
    rcases ih he with hin | hop
    · rcases List.mem_append.1 hin with hin' | hin'
      · exact .inl hin'
      · exact .inr ⟨_, List.mem_singleton.1 hin'⟩
    · exact .inr hop
  | case3 i l evs h =>
    rw [pollRound, dif_neg h] at he
    exact .inl he

theorem pollLoop_nil (doneAt : Nat → String → Bool) (fuel t : Nat) :
    pollLoop doneAt fuel t [] = some (t, []) := by
  cases fuel <;> rfl

theorem pollLoop_time (doneAt : Nat → String → Bool) :
    ∀ fuel t l t' evs, pollLoop doneAt fuel t l = some (t', evs) →
      ∃ k, k ≤ fuel ∧ t' = t + 5 * k := by
  intro fuel
  induction fuel with
  | zero =>
    intro t l t' evs h
    match l with
    | [] =>
      rw [pollLoop_nil] at h
      injection h with h
      rw [Prod.mk.injEq] at h
      obtain ⟨h1, h2⟩ := h
      exact ⟨0, Nat.le_refl 0, by omega⟩
    | x :: xs => cases h
  | succ n ih =>
    intro t l t' evs h
    match l with
    | [] =>
      rw [pollLoop_nil] at h
      injection h with h
      rw [Prod.mk.injEq] at h
      obtain ⟨h1, h2⟩ := h
      exact ⟨0, Nat.zero_le _, by omega⟩
    | x :: xs =>
      rw [pollLoop] at h
      cases hrec : pollLoop doneAt n (t + 5)
          (pollRound (doneAt (t + 5)) 0 (x :: xs) []).1 with
      | none => rw [hrec] at h; cases h
      | some p =>
        rw [hrec] at h
        obtain ⟨k, hk, ht⟩ := ih (t + 5) _ p.1 p.2 hrec
        injection h with h
        rw [Prod.mk.injEq] at h
        obtain ⟨h1, h2⟩ := h
        exact ⟨k + 1, by omega, by omega⟩

theorem pollLoop_never_done (doneAt : Nat → String → Bool) (x : String)
    (hx : ∀ s, doneAt s x = false) :
    ∀ fuel t l, x ∈ l → pollLoop doneAt fuel t l = none := by
  intro fuel
  induction fuel with
  | zero =>
    intro t l hmem
    match l with
    | [] => cases hmem
    | y :: ys => rfl
  | succ n ih =>
    intro t l hmem
    match l with
    | [] => cases hmem
    | y :: ys =>
      rw [pollLoop]
      have hx' : x ∈ (pollRound (doneAt (t + 5)) 0 (y :: ys) []).1 :=
        pollRound_mem_of_not_done _ _ _ _ _ hmem (hx (t + 5))
      rw [ih (t + 5) _ hx']

theorem pollLoop_all_done (doneAt : Nat → String → Bool) :
    ∀ fuel t l t' evs, pollLoop doneAt fuel t l = some (t', evs) →
      ∀ x, x ∈ l → ∃ s, s ≤ t' ∧ doneAt s x = true := by
  intro fuel
  induction fuel with
  | zero =>
    intro t l t' evs h x hx
    match l with
    | [] => cases hx
    | y :: ys => cases h
  | succ n ih =>
    intro t l t' evs h x hx
    match l with
    | [] => cases hx
    | y :: ys =>
      rw [pollLoop] at h
      cases hrec : pollLoop doneAt n (t + 5)
          (pollRound (doneAt (t + 5)) 0 (y :: ys) []).1 with
      | none => rw [hrec] at h; cases h
      | some p =>
        rw [hrec] at h
        injection h with h
        rw [Prod.mk.injEq] at h
        obtain ⟨h1, h2⟩ := h
        by_cases hdone : doneAt (t + 5) x = true
        · obtain ⟨k, _, ht⟩ := pollLoop_time doneAt n (t + 5) _ p.1 p.2 hrec
          exact ⟨t + 5, by omega, hdone⟩
        · have hx' : x ∈ (pollRound (doneAt (t + 5)) 0 (y :: ys) []).1 :=
            pollRound_mem_of_not_done _ _ _ _ _ hx
              (Bool.not_eq_true _ ▸ hdone)
          obtain ⟨s, hs, hd⟩ := ih (t + 5) _ p.1 p.2 hrec x hx'
          exact ⟨s, by omega, hd⟩

theorem pollLoop_events (doneAt : Nat → String → Bool) :
    ∀ fuel t l t' evs, pollLoop doneAt fuel t l = some (t', evs) →
      ∀ e, e ∈ evs → e = Event.sleep ∨ ∃ op, e = Event.checkOp op := by
  intro fuel
  induction fuel with
  | zero =>
    intro t l t' evs h e he
    match l with
    | [] =>
      rw [pollLoop_nil] at h
      injection h with h
      rw [Prod.mk.injEq] at h
      obtain ⟨h1, h2⟩ := h
      rw [← h2] at he
      cases he
    | y :: ys => cases h
  | succ n ih =>
    intro t l t' evs h e he
    match l with
    | [] =>
      rw [pollLoop_nil] at h
      injection h with h
      rw [Prod.mk.injEq] at h
      obtain ⟨h1, h2⟩ := h
      rw [← h2] at he
      cases he
    | y :: ys =>
      rw [pollLoop] at h
      cases hrec : pollLoop doneAt n (t + 5)
          (pollRound (doneAt (t + 5)) 0 (y :: ys) []).1 with
      | none => rw [hrec] at h; cases h
      | some p =>
        rw [hrec] at h
        injection h with h
        rw [Prod.mk.injEq] at h
        obtain ⟨h1, h2⟩ := h
        rw [← h2] at he
        rcases List.mem_append.1 he with hin | hin
        · rcases List.mem_cons.1 hin with hsl | hin'
          · exact .inl hsl
          · rcases pollRound_events _ _ _ _ _ hin' with hemp | hop
            · cases hemp
            · exact .inr hop
        · exact ih (t + 5) _ p.1 p.2 hrec e hin

theorem versionScan_stop (i : Nat) (l : List Version) (acc : List Version)
    (h : l.length ≤ i) : versionScan i l acc = (l, acc) := by
  rw [versionScan, dif_neg (by omega)]

theorem versionScan_skip (i : Nat) (l : List Version) (acc : List Version)
    (h : i < l.length) (hd : ((l.get ⟨i, h⟩).isDefault).isSome = true) :
    versionScan i l acc = versionScan (i + 1) l acc := by
  rw [versionScan, dif_pos h, if_pos hd]

theorem versionScan_del (i : Nat) (l : List Version) (acc : List Version)
    (h : i < l.length) (hd : ((l.get ⟨i, h⟩).isDefault).isSome = false) :
    versionScan i l acc =
      versionScan (i + 1) (l.erase (l.get ⟨i, h⟩)) (acc ++ [l.get ⟨i, h⟩]) := by
  rw [versionScan, dif_pos h, if_neg (by rw [hd]; exact Bool.false_ne_true)]

theorem versionScan_deleted_isNone (i : Nat) (l : List Version)
    (acc : List Version) (v : Version) (hv : v ∈ (versionScan i l acc).2) :
    v ∈ acc ∨ v.isDefault = none := by
  induction i, l, acc using versionScan.induct with
  | case1 i l acc h hd ih =>
    rw [versionScan_skip i l acc h hd] at hv
    exact ih hv
  | case2 i l acc h hd ih =>
    rw [versionScan_del i l acc h (by simpa using hd)] at hv
    rcases ih hv with hin | hnone
    · rcases List.mem_append.1 hin with hin' | hin'
      · exact .inl hin'
      · refine .inr ?_
        rw [List.mem_singleton.1 hin']
        simpa using hd
    · exact .inr hnone
  | case3 i l acc h =>
    rw [versionScan_stop i l acc (by omega)] at hv
    exact .inl hv

theorem deleteVersions_ok_mem (api : Api) :
    ∀ l ops, deleteVersions api l = .ok ops →
      ∀ v, v ∈ l → ∃ op, deleteVersionCall api v = .ok op ∧ op ∈ ops := by
  intro l
  induction l with
  | nil =>
    intro ops _ v hv
    cases hv
  | cons w rest ih =>
    intro ops h v hv
    rw [deleteVersions] at h
    cases hdc : deleteVersionCall api w with
    | error e => rw [hdc] at h; cases h
    | ok op =>
      rw [hdc] at h
      cases hrest : deleteVersions api rest with
      | error e => rw [hrest] at h; cases h
      | ok ops' =>
        rw [hrest] at h
        injection h with h
        rcases List.mem_cons.1 hv with hvw | hvr
        · exact ⟨op, hvw ▸ hdc, by rw [← h]; exact List.mem_cons_self _ _⟩
        · obtain ⟨op', hop', hmem⟩ := ih ops' hrest v hvr
          exact ⟨op', hop', by rw [← h]; exact List.mem_cons_of_mem _ hmem⟩

theorem deleteModels_ok_shape (api : Api) :
    ∀ ms evs, deleteModels api ms = .ok evs →
      evs = ms.map (fun m => Event.deleteModel m.name) := by
  intro ms
  induction ms with
  | nil =>
    intro evs h
    injection h with h
    exact h.symm
  | cons m rest ih =>
    intro evs h
    rw [deleteModels] at h
    cases hdc : deleteModelCall api m with
    | error e => rw [hdc] at h; cases h
    | ok u =>
      rw [hdc] at h
      cases hrest : deleteModels api rest with
      | error e => rw [hrest] at h; cases h
      | ok evs' =>
        rw [hrest] at h
        injection h with h
        rw [← h, List.map_cons, ih evs' hrest]

/-- A version list holding exactly one version with the `isDefault` key and
no two adjacent versions both lacking it has one of four shapes. -/
theorem oneDefault_shapes (vs : List Version)
    (h1 : (vs.filter (fun v => (v.isDefault).isSome)).length = 1)
    (h2 : List.Chain'
      (fun a b => (a.isDefault).isSome = true ∨ (b.isDefault).isSome = true) vs) :
    ∃ d, (d.isDefault).isSome = true ∧
      (vs = [d] ∨
       (∃ n, n.isDefault = none ∧ (vs = [n, d] ∨ vs = [d, n])) ∨
       (∃ n₁ n₂, n₁.isDefault = none ∧ n₂.isDefault = none ∧
         vs = [n₁, d, n₂])) := by
  match vs with
  | [] => simp [List.filter] at h1
  | [a] =>
    cases ha : a.isDefault with
    | none => simp [List.filter_cons, ha] at h1
    | some b =>
      exact ⟨a, by rw [ha]; rfl, .inl rfl⟩
  | [a, b] =>
    cases ha : a.isDefault with
    | none =>
      cases hb : b.isDefault with
      | none => simp [List.filter_cons, ha, hb] at h1
      | some c =>
        exact ⟨b, by rw [hb]; rfl, .inr (.inl ⟨a, ha, .inl rfl⟩)⟩
    | some c =>
      cases hb : b.isDefault with
      | none =>
        exact ⟨a, by rw [ha]; rfl, .inr (.inl ⟨b, hb, .inr rfl⟩)⟩
      | some c' => simp [List.filter_cons, ha, hb] at h1
  | [a, b, c] =>
    cases ha : a.isDefault with
    | none =>
      cases hb : b.isDefault with
      | none => simp [List.chain'_cons, ha, hb] at h2
      | some x =>
        cases hc : c.isDefault with
        | none =>
          exact ⟨b, by rw [hb]; rfl, .inr (.inr ⟨a, c, ha, hc, rfl⟩)⟩
        | some y => simp [List.filter_cons, ha, hb, hc] at h1
    | some x =>
      cases hb : b.isDefault with
      | none =>
        cases hc : c.isDefault with
        | none => simp [List.chain'_cons, hb, hc] at h2
        | some y => simp [List.filter_cons, ha, hb, hc] at h1
      | some y => simp [List.filter_cons, ha, hb] at h1
  | a :: b :: c :: d :: rest =>
    exfalso
    rw [List.chain'_cons, List.chain'_cons, List.chain'_cons] at h2
    cases hca : a.isDefault <;> cases hcb : b.isDefault <;>
      cases hcc : c.isDefault <;> cases hcd : d.isDefault <;>
      simp_all [List.filter_cons]

theorem version_ne_of_flags (d n : Version) (hd : ((d.isDefault)).isSome = true)
    (hn : n.isDefault = none) : d ≠ n := by
  intro he
  rw [he, hn] at hd
  cases hd

theorem versionScan_shape_d (d : Version) (hd : ((d.isDefault)).isSome = true) :
    versionScan 0 [d] [] = ([d], []) := by
  rw [versionScan_skip 0 [d] [] (by simp) (by simpa using hd),
    versionScan_stop 1 [d] [] (by simp)]

theorem versionScan_shape_nd (n d : Version) (hn : n.isDefault = none) :
    versionScan 0 [n, d] [] = ([d], [n]) := by
  rw [versionScan_del 0 [n, d] [] (by simp) (by simp [hn])]
  simp only [List.get, List.erase_cons_head, List.nil_append]
  rw [versionScan_stop 1 [d] [n] (by simp)]

theorem versionScan_shape_dn (d n : Version) (hd : ((d.isDefault)).isSome = true)
    (hn : n.isDefault = none) :
    versionScan 0 [d, n] [] = ([d], [n]) := by
  rw [versionScan_skip 0 [d, n] [] (by simp) (by simpa using hd),
    versionScan_del 1 [d, n] [] (by simp) (by simp [hn])]
  simp only [List.get, List.nil_append]
  rw [List.erase_cons,
    if_neg (by simp [version_ne_of_flags d n hd hn]),
    List.erase_cons_head,
    versionScan_stop 2 [d] [n] (by simp)]

theorem versionScan_shape_ndn (n₁ d n₂ : Version)
    (hd : ((d.isDefault)).isSome = true) (hn₁ : n₁.isDefault = none)
    (hn₂ : n₂.isDefault = none) :
    versionScan 0 [n₁, d, n₂] [] = ([d], [n₁, n₂]) := by
  rw [versionScan_del 0 [n₁, d, n₂] [] (by simp) (by simp [hn₁])]
  simp only [List.get, List.erase_cons_head, List.nil_append]
  rw [versionScan_del 1 [d, n₂] [n₁] (by simp) (by simp [hn₂])]
  simp only [List.get]
  rw [List.erase_cons,
    if_neg (by simp [version_ne_of_flags d n₂ hd hn₂]),
    List.erase_cons_head,
    versionScan_stop 2 [d] ([n₁] ++ [n₂]) (by simp)]
  simp

theorem pollLoop_no_deletes (doneAt : Nat → String → Bool) (fuel t : Nat)
    (l : List String) (t' : Nat) (evs : List Event)
    (h : pollLoop doneAt fuel t l = some (t', evs)) :
    (∀ vn, Event.deleteVersion vn ∉ evs) ∧
    (∀ mn, Event.deleteModel mn ∉ evs) := by
  constructor
  · intro vn hn
    rcases pollLoop_events doneAt fuel t l t' evs h _ hn with he | ⟨op, he⟩ <;>
      cases he
  · intro mn hn
    rcases pollLoop_events doneAt fuel t l t' evs h _ hn with he | ⟨op, he⟩ <;>
      cases he

theorem processModel_inv (api : Api) (fuel t : Nat) (vs : List Version)
    (t' : Nat) (evs : List Event) (op0 : String)
    (h : processModel api fuel t vs = .ok (t', evs, op0)) :
    ∃ ops pollEvs v0 remTail,
      (versionScan 0 vs []).1 = v0 :: remTail ∧
      deleteVersions api (versionScan 0 vs []).2 = .ok ops ∧
      pollLoop (checkOpCall api) fuel t ops = some (t', pollEvs) ∧
      deleteVersionCall api v0 = .ok op0 ∧
      evs = ((versionScan 0 vs []).2.map (fun v => Event.deleteVersion v.name)
        ++ pollEvs) ++ [Event.deleteVersion v0.name] := by
  rw [processModel] at h
  split at h
  next e hdv => cases h
  next ops hdv =>
    split at h
    next hpl => cases h
    next tp pollEvs hpl =>
      split at h
      next e hidx => cases h
      next v0 hidx =>
        split at h
        next e hdc => cases h
        next opd hdc =>
          injection h with h
          rw [Prod.mk.injEq] at h
          obtain ⟨h1, h2⟩ := h
          rw [Prod.mk.injEq] at h2
          obtain ⟨h2, h3⟩ := h2
          obtain ⟨remTail, hrem⟩ : ∃ remTail,
              (versionScan 0 vs []).1 = v0 :: remTail := by
            cases hr : (versionScan 0 vs []).1 with
            | nil =>
              rw [hr] at hidx
              rw [pyIndex] at hidx
              cases hidx
            | cons a as =>
              rw [hr] at hidx
              rw [pyIndex] at hidx
              simp only [List.get?] at hidx
              injection hidx with hidx
              exact ⟨as, by rw [hidx]⟩
          exact ⟨ops, pollEvs, v0, remTail, hrem, hdv,
            by rw [hpl, h1], by rw [hdc, h3], h2.symm⟩

theorem processModels_facts (api : Api) (fuel : Nat) :
    ∀ ms t tEnd evs defOps,
      processModels api fuel ms t = .ok (tEnd, evs, defOps) →
      t ≤ tEnd ∧
      (∀ mn, Event.deleteModel mn ∉ evs) ∧
      (∀ vn, Event.deleteVersion vn ∈ evs →
        ∃ op, deleteVersionByName api vn = .ok op ∧
          ((∃ s, s ≤ tEnd ∧ checkOpCall api s op = true) ∨ op ∈ defOps)) := by
  intro ms
  induction ms with
  | nil =>
    intro t tEnd evs defOps h
    rw [processModels] at h
    injection h with h
    rw [Prod.mk.injEq] at h
    obtain ⟨h1, h2⟩ := h
    rw [Prod.mk.injEq] at h2
    obtain ⟨h2, h3⟩ := h2
    refine ⟨by omega, ?_, ?_⟩
    · intro mn hn
      rw [← h2] at hn
      cases hn
    · intro vn hn
      rw [← h2] at hn
      cases hn
  | cons m rest ih =>
    intro t tEnd evs defOps h
    rw [processModels] at h
    split at h
    next hv => cases h
    next vs hv =>
      split at h
      next e hpm => cases h
      next t1 evs1 op1 hpm =>
        split at h
        next e hrest => cases h
        next t2 evs2 ops2 hrest =>
          injection h with h
          rw [Prod.mk.injEq] at h
          obtain ⟨h1, h2⟩ := h
          rw [Prod.mk.injEq] at h2
          obtain ⟨h2, h3⟩ := h2
          obtain ⟨ops, pollEvs, v0, remTail, hrem, hdv, hpl, hdc, hevs1⟩ :=
            processModel_inv api fuel t vs t1 evs1 op1 hpm
          obtain ⟨hle, hnm, hvn⟩ := ih t1 t2 evs2 ops2 hrest
          have ht1 : t ≤ t1 := by
            obtain ⟨k, _, hk⟩ := pollLoop_time _ fuel t ops t1 pollEvs hpl
            omega
          obtain ⟨hpv, hpm'⟩ := pollLoop_no_deletes _ fuel t ops t1 pollEvs hpl
          refine ⟨by omega, ?_, ?_⟩
          · intro mn hn
            rw [← h2] at hn
            rcases List.mem_append.1 hn with hn | hn
            · rw [hevs1] at hn
              rcases List.mem_append.1 hn with hn | hn
              · rcases List.mem_append.1 hn with hn | hn
                · rcases List.mem_map.1 hn with ⟨v, _, hveq⟩
                  cases hveq
                · exact hpm' mn hn
              · cases List.mem_singleton.1 hn
            · exact hnm mn hn
          · intro vn hn
            rw [← h2] at hn
            rcases List.mem_append.1 hn with hn | hn
            · rw [hevs1] at hn
              rcases List.mem_append.1 hn with hn | hn
              · rcases List.mem_append.1 hn with hn | hn
                · rcases List.mem_map.1 hn with ⟨v, hv_mem, hveq⟩
                  injection hveq with hveq
                  obtain ⟨op, hop, hopmem⟩ :=
                    deleteVersions_ok_mem api _ ops hdv v hv_mem
                  obtain ⟨s, hs, hdone⟩ :=
                    pollLoop_all_done _ fuel t ops t1 pollEvs hpl op hopmem
                  refine ⟨op, ?_, .inl ⟨s, by omega, hdone⟩⟩
                  rw [← hveq]
                  exact hop
                · exact absurd hn (hpv vn)
              · have hn' := List.mem_singleton.1 hn
                injection hn' with hn'
                refine ⟨op1, ?_,
                  .inr (by rw [← h3]; exact List.mem_cons_self _ _)⟩
                rw [hn']
                exact hdc
            · obtain ⟨op, hop, hrest'⟩ := hvn vn hn
              refine ⟨op, hop, ?_⟩
              rcases hrest' with ⟨s, hs, hdone⟩ | hmem
              · exact .inl ⟨s, by omega, hdone⟩
              · exact .inr (by rw [← h3]; exact List.mem_cons_of_mem _ hmem)

theorem filter_dv_map (dels : List Version) :
    (dels.map (fun v => Event.deleteVersion v.name)).filter isDeleteVersionEv
      = dels.map (fun v => Event.deleteVersion v.name) := by
  rw [List.filter_eq_self]
  intro e he
  rcases List.mem_map.1 he with ⟨v, _, hveq⟩
  rw [← hveq]
  rfl

theorem filter_dm_map (ms : List Model) :
    (ms.map (fun m => Event.deleteModel m.name)).filter isDeleteModelEv
      = ms.map (fun m => Event.deleteModel m.name) := by
  rw [List.filter_eq_self]
  intro e he
  rcases List.mem_map.1 he with ⟨m, _, hmeq⟩
  rw [← hmeq]
  rfl

theorem filter_dv_poll (doneAt : Nat → String → Bool) (fuel t : Nat)
    (l : List String) (t' : Nat) (evs : List Event)
    (h : pollLoop doneAt fuel t l = some (t', evs)) :
    evs.filter isDeleteVersionEv = [] := by
  rw [List.filter_eq_nil_iff]
  intro e he hde
  rcases pollLoop_events doneAt fuel t l t' evs h e he with he' | ⟨op, he'⟩ <;>
    rw [he'] at hde <;> simp [isDeleteVersionEv] at hde

theorem filter_dm_eq_nil (evs : List Event)
    (h : ∀ mn, Event.deleteModel mn ∉ evs) :
    evs.filter isDeleteModelEv = [] := by
  rw [List.filter_eq_nil_iff]
  intro e he hde
  cases e with
  | deleteVersion vn => simp [isDeleteModelEv] at hde
  | checkOp op => simp [isDeleteModelEv] at hde
  | sleep => simp [isDeleteModelEv] at hde
  | deleteModel mn => exact h mn he

theorem runSweep_decomp (api : Api) (fuel : Nat) (tF : Nat) (tr : List Event)
    (ms : List Model) (hms : api.models = some ms)
    (h : runSweep api fuel = .ok (tF, tr)) :
    ∃ t1 evs defOps pollEvs,
      processModels api fuel ms 0 = .ok (t1, evs, defOps) ∧
      pollLoop (checkOpCall api) fuel t1 defOps = some (tF, pollEvs) ∧
      tr = (evs ++ pollEvs) ++ ms.map (fun m => Event.deleteModel m.name) := by
  rw [runSweep, hms] at h
  split at h
  next => cases h
  next ms' hms' =>
   injection hms' with hms'
   subst hms'
   split at h
   next e hpm => cases h
   next t1 evs defOps hpm =>
    split at h
    next hpl => cases h
    next t2 pollEvs hpl =>
      split at h
      next e hdm => cases h
      next mEvs hdm =>
        injection h with h
        rw [Prod.mk.injEq] at h
        obtain ⟨h1, h2⟩ := h
        have hshape := deleteModels_ok_shape api ms mEvs hdm
        exact ⟨t1, evs, defOps, pollEvs, hpm, by rw [hpl, h1],
          by rw [← h2, hshape]⟩


theorem c1_core (api : Api) (fuel t : Nat) (vs : List Version) (d : Version)
    (dels : List Version) (t' : Nat) (evs : List Event) (op0 : String)
    (hscan : versionScan 0 vs [] = ([d], dels))
    (hlen : vs.length = dels.length + 1)
    (hmem : ∀ v, v ∈ vs → v ≠ d → v ∈ dels)
    (h3 : processModel api fuel t vs = .ok (t', evs, op0)) :
    (evs.filter isDeleteVersionEv).length = vs.length ∧
    evs.getLast? = some (Event.deleteVersion d.name) ∧
    (∀ v, v ∈ vs → v ≠ d →
      ∃ op, deleteVersionCall api v = .ok op ∧
        ∃ s, s ≤ t' ∧ checkOpCall api s op = true) := by
  obtain ⟨ops, pollEvs, v0, remTail, hrem, hdv, hpl, hdc, hevs⟩ :=
    processModel_inv api fuel t vs t' evs op0 h3
  rw [hscan] at hrem hdv hevs
  have hv0 : v0 = d := by
    injection hrem with hv0 _
    exact hv0.symm
  refine ⟨?_, ?_, ?_⟩
  · rw [hevs, List.filter_append, List.filter_append, filter_dv_map,
      filter_dv_poll (checkOpCall api) fuel t ops t' pollEvs hpl]
    simp only [List.length_append, List.length_map]
    rw [hlen, hv0]
    simp [isDeleteVersionEv]
  · rw [hevs, hv0, List.getLast?_concat]
  · intro v hv hvd
    obtain ⟨op, hop, hopmem⟩ :=
      deleteVersions_ok_mem api dels ops hdv v (hmem v hv hvd)
    obtain ⟨s, hs, hdone⟩ :=
      pollLoop_all_done (checkOpCall api) fuel t ops t' pollEvs hpl op hopmem
    exact ⟨op, hop, s, hs, hdone⟩

/-- C2, counterexample: a get-operation response carrying `done` with value
`false` — the API explicitly reporting the operation still in progress —
is nevertheless classified as deleted by `is_version_deleted`, because the
code tests presence of the `"done"` key, not its value.  So the poller can
mark an operation complete before the API reports completion. -/
theorem claim_c2_counterexample :
    is_version_deleted ⟨some false⟩ = true ∧
    reportsCompletion ⟨some false⟩ = false := by
  decide

/-- C2, amended: `is_version_deleted` reports an operation complete exactly
when the get-operation response contains the `"done"` key, at any value.
Whenever the API reports completion (`done = true`) the operation is
reported complete; but a response carrying `done = false` is also reported
complete, so the if-and-only-if of the original claim fails in that one
direction. -/
theorem claim_c2_amended (r : OperationResponse) :
    (is_version_deleted r = true ↔ r.done ≠ none) ∧
    (reportsCompletion r = true → is_version_deleted r = true) := by
  constructor
  · cases hr : r.done <;> simp [is_version_deleted, hr]
  · intro h
    cases hr : r.done with
    | none => rw [reportsCompletion, hr] at h; cases h
    | some b => simp [is_version_deleted, hr]

/-- C2, witness: the amended theorem at the response `⟨some true⟩`. -/
theorem claim_c2_witness : is_version_deleted ⟨some true⟩ = true :=
  (claim_c2_amended ⟨some true⟩).2 (by decide)

/-- C3, counterexample: with an `"error"` key present in the delete
response, BOTH delete paths (`delete_version` and `delete_model`) hit
`print(error)` with the undefined name `error` and raise `NameError`, and
neither prints the error message — there is no code path that prints the
error and continues, contradicting "except in exactly one code path". -/
theorem claim_c3_counterexample :
    (delete_version "v1" ⟨some "permission denied", some "op-v1"⟩).2
        = .error .nameError ∧
    "permission denied" ∉
      (delete_version "v1" ⟨some "permission denied", some "op-v1"⟩).1 ∧
    (delete_model "m1" ⟨some "permission denied", none⟩).2
        = .error .nameError ∧
    "permission denied" ∉
      (delete_model "m1" ⟨some "permission denied", none⟩).1 := by
  decide

/-- C3, amended: in BOTH code paths where a delete response payload
contains an `"error"` key — `delete_version` and `delete_model` — the
undefined variable `error` is referenced and a name-resolution failure
(`NameError`) is raised instead of the message being printed. -/
theorem claim_c3_amended (vn mn : String) (rv rm : DeleteResponse)
    (hv : ((rv.error)).isSome = true) (hm : ((rm.error)).isSome = true) :
    (delete_version vn rv).2 = .error .nameError ∧
    (delete_model mn rm).2 = .error .nameError := by
  constructor
  · simp [delete_version, hv]
  · simp [delete_model, hm]

/-- C3, witness: the amended theorem at concrete error-carrying
responses. -/
theorem claim_c3_witness :
    (delete_version "v" ⟨some "e", none⟩).2 = .error .nameError ∧
    (delete_model "m" ⟨some "e", none⟩).2 = .error .nameError :=
  claim_c3_amended "v" "m" ⟨some "e", none⟩ ⟨some "e", none⟩
    (by decide) (by decide)

/-- C6, counterexample: with pending handles `["a", "b"]` both of whose
operations report completion, one polling round removes only `"a"`; the
handle `"b"`, shifted into the removed handle's slot, is skipped — it is
not even status-checked that round — and stays pending, contradicting
"re-checks every handle still pending, removing exactly those whose
operation reports completion in that round". -/
theorem claim_c6_counterexample :
    (pollRound (fun _ => true) 0 ["a", "b"] []).1 = ["b"] ∧
    (pollRound (fun _ => true) 0 ["a", "b"] []).2 = [Event.checkOp "a"] := by
  simp [pollRound]

/-- C6, amended: in each polling round, every handle the round removes did
report completion in that round, the round adds no handles, and every
still-incomplete handle stays pending; but a handle directly following a
removed one is skipped — not re-checked — in that round, so a completed
handle may survive the round and only be removed in a later one. -/
theorem claim_c6_amended (done : String → Bool) (i : Nat) (l : List String)
    (evs : List Event) :
    (∀ x, x ∈ l → x ∉ (pollRound done i l evs).1 → done x = true) ∧
    (∀ x, x ∈ (pollRound done i l evs).1 → x ∈ l) ∧
    (∀ x, x ∈ l → done x = false → x ∈ (pollRound done i l evs).1) :=
  ⟨fun x hx hout => pollRound_done_of_removed done i l evs x hx hout,
   fun x hx => pollRound_subset done i l evs x hx,
   fun x hx hnd => pollRound_mem_of_not_done done i l evs x hx hnd⟩

/-- C6, witness: the amended theorem at a concrete round in which the
incomplete handle `"b"` stays pending. -/
theorem claim_c6_witness :
    "b" ∈ (pollRound (fun s => s == "a") 0 ["a", "b"] []).1 :=
  (claim_c6_amended (fun s => s == "a") 0 ["a", "b"] []).2.2 "b"
    (by decide) (by decide)

/-- C7: on the spec's concrete scenario — model `"clf_add_to_cart"` with
version list exactly `[{"name": "v1", "isDefault": true}]` — the sweep
issues no non-default version deletions (the trace's only version-delete
events are for `"v1"`), proceeds directly to deleting `"v1"`, polls its
operation, and afterwards deletes the model. -/
theorem claim_c7_single_default :
    apiSingleDefault.versions "clf_add_to_cart" = some [⟨"v1", some true⟩] ∧
    runSweep apiSingleDefault 1 =
      .ok (5, [Event.deleteVersion "v1", Event.sleep, Event.checkOp "op-v1",
        Event.deleteModel "clf_add_to_cart"]) := by
  refine ⟨rfl, ?_⟩
  simp [runSweep, apiSingleDefault, processModels, processModel, deleteVersions,
    deleteModels, versionScan, pollLoop, pollRound, deleteVersionCall,
    deleteModelCall, checkOpCall, delete_version, delete_model,
    is_version_deleted, pyIndex, deleteVersionByName]

/-- C9: a version is deleted in the non-default phase only when the
`isDefault` key is absent from its dict: every version the scan hands to
`delete_version` has `isDefault = none`, and a version whose dict contains
the key with any value — including `false` — is never deleted in that
phase. -/
theorem claim_c9_key_presence (vs : List Version) (v : Version) (b : Bool) :
    (v ∈ (versionScan 0 vs []).2 → v.isDefault = none) ∧
    (v.isDefault = some b → v ∉ (versionScan 0 vs []).2) := by
  constructor
  · intro hv
    rcases versionScan_deleted_isNone 0 vs [] v hv with h | h
    · cases h
    · exact h
  · intro hb hv
    rcases versionScan_deleted_isNone 0 vs [] v hv with h | h
    · cases h
    · rw [hb] at h
      cases h
/-- C9, witness: a version carrying `isDefault = false` is skipped by the
non-default deletion phase. -/
theorem claim_c9_witness :
    (⟨"v1", some false⟩ : Version) ∉
      (versionScan 0 [⟨"v1", some false⟩, ⟨"v2", none⟩] []).2 :=
  (claim_c9_key_presence [⟨"v1", some false⟩, ⟨"v2", none⟩]
    ⟨"v1", some false⟩ false).2 rfl

/-- C10: a `models.list` response without the `"models"` key makes
`get_models` — and the sweep — raise `KeyError`; a `versions.list`
response without the `"versions"` key makes `get_versions` — and the
sweep, on the first model — raise `KeyError`; and when the scan removed
every version of a model as non-default, `versions[0]` raises
`IndexError`, a state reachable from the single-version list
`[{"name": "v1"}]`. -/
theorem claim_c10_missing_keys :
    (∀ r : ModelsResponse, r.models = none → get_models r = .error .keyError) ∧
    (∀ api : Api, ∀ fuel, api.models = none →
      runSweep api fuel = .error .keyError) ∧
    (∀ r : VersionsResponse, r.versions = none →
      get_versions r = .error .keyError) ∧
    (∀ api : Api, ∀ fuel, ∀ m : Model, ∀ rest, api.models = some (m :: rest) →
      api.versions m.name = none → runSweep api fuel = .error .keyError) ∧
    (∀ vs : List Version, (versionScan 0 vs []).1 = [] →
      pyIndex (versionScan 0 vs []).1 0 = .error .indexError) ∧
    (versionScan 0 [⟨"v1", none⟩] []).1 = [] := by
  refine ⟨?_, ?_, ?_, ?_, ?_, ?_⟩
  · intro r h
    rw [get_models, h]
  · intro api fuel h
    rw [runSweep, h]
  · intro r h
    rw [get_versions, h]
  · intro api fuel m rest hms hv
    rw [runSweep, hms]
    simp only [processModels, hv]
  · intro vs h
    rw [h]
    rfl
  · simp [versionScan]

/-- C10, witness: the theorem applied to mock APIs with the respective
malformed responses and to the all-non-default version list. -/
theorem claim_c10_witness :
    runSweep apiNoModelsKey 1 = .error .keyError ∧
    runSweep apiNoVersionsKey 1 = .error .keyError ∧
    pyIndex (versionScan 0 [⟨"v1", none⟩] []).1 0 = .error .indexError :=
  ⟨claim_c10_missing_keys.2.1 apiNoModelsKey 1 rfl,
   claim_c10_missing_keys.2.2.2.1 apiNoVersionsKey 1 ⟨"m"⟩ [] rfl rfl,
   claim_c10_missing_keys.2.2.2.2.1 [⟨"v1", none⟩] (by simp [versionScan])⟩

/-- C1, counterexample: model `"m"` has three versions of which exactly one
(`"v3"`) is default, yet the sweep issues only 2 version-delete requests,
not 3, and never issues a delete for the default `"v3"` at all: removing
`"v1"` from the `versions` list while iterating shifts `"v2"` into the
visited slot, so `"v2"` survives the non-default phase and is then deleted
as `versions[0]` in the default phase. -/
theorem claim_c1_counterexample :
    apiThreeVersions.versions "m" =
      some [⟨"v1", none⟩, ⟨"v2", none⟩, ⟨"v3", some true⟩] ∧
    (([⟨"v1", none⟩, ⟨"v2", none⟩, ⟨"v3", some true⟩] : List Version).filter
      (fun v => ((v.isDefault)).isSome)).length = 1 ∧
    runSweep apiThreeVersions 2 =
      .ok (10, [Event.deleteVersion "v1", Event.sleep, Event.checkOp "op-v1",
        Event.deleteVersion "v2", Event.sleep, Event.checkOp "op-v2",
        Event.deleteModel "m"]) ∧
    (([Event.deleteVersion "v1", Event.sleep, Event.checkOp "op-v1",
        Event.deleteVersion "v2", Event.sleep, Event.checkOp "op-v2",
        Event.deleteModel "m"].filter isDeleteVersionEv).length = 2) ∧
    Event.deleteVersion "v3" ∉
      [Event.deleteVersion "v1", Event.sleep, Event.checkOp "op-v1",
        Event.deleteVersion "v2", Event.sleep, Event.checkOp "op-v2",
        Event.deleteModel "m"] := by
  refine ⟨rfl, by decide, ?_, by decide, by decide⟩
  simp [runSweep, apiThreeVersions, processModels, processModel, deleteVersions,
    deleteModels, versionScan, pollLoop, pollRound, deleteVersionCall,
    deleteModelCall, checkOpCall, delete_version, delete_model,
    is_version_deleted, pyIndex, deleteVersionByName]

/-- C1, amended: for a model with N versions of which exactly one is
default, PROVIDED no two adjacent versions both lack the `isDefault` key
(which rules out the mutate-while-iterating skip hitting a non-default
version), the sweep issues exactly N version-delete requests, the last of
them for the default version, and the default's delete is issued only
after every other version's delete operation reported completion. -/
theorem claim_c1_amended (api : Api) (fuel t : Nat) (vs : List Version)
    (t' : Nat) (evs : List Event) (op0 : String)
    (h1 : (vs.filter (fun v => ((v.isDefault)).isSome)).length = 1)
    (h2 : List.Chain' (fun a b => ((a.isDefault)).isSome = true ∨
      ((b.isDefault)).isSome = true) vs)
    (h3 : processModel api fuel t vs = .ok (t', evs, op0)) :
    ∃ d, d ∈ vs ∧ ((d.isDefault)).isSome = true ∧
      (evs.filter isDeleteVersionEv).length = vs.length ∧
      evs.getLast? = some (Event.deleteVersion d.name) ∧
      (∀ v, v ∈ vs → v ≠ d →
        ∃ op, deleteVersionCall api v = .ok op ∧
          ∃ s, s ≤ t' ∧ checkOpCall api s op = true) := by
  obtain ⟨d, hd, hshape⟩ := oneDefault_shapes vs h1 h2
  rcases hshape with hA | ⟨n, hn, hB | hC⟩ | ⟨n₁, n₂, hn₁, hn₂, hD⟩
  · subst hA
    refine ⟨d, List.mem_singleton.2 rfl, hd, ?_⟩
    refine c1_core api fuel t [d] d [] t' evs op0
      (versionScan_shape_d d hd) rfl ?_ h3
    intro v hv hvd
    exact absurd (List.mem_singleton.1 hv) hvd
  · subst hB
    refine ⟨d, by simp, hd, ?_⟩
    refine c1_core api fuel t [n, d] d [n] t' evs op0
      (versionScan_shape_nd n d hn) rfl ?_ h3
    intro v hv hvd
    rcases List.mem_cons.1 hv with hvn | hv'
    · rw [hvn]
      exact List.mem_singleton.2 rfl
    · exact absurd (List.mem_singleton.1 hv') hvd
  · subst hC
    refine ⟨d, by simp, hd, ?_⟩
    refine c1_core api fuel t [d, n] d [n] t' evs op0
      (versionScan_shape_dn d n hd hn) rfl ?_ h3
    intro v hv hvd
    rcases List.mem_cons.1 hv with hvd' | hv'
    · exact absurd hvd' hvd
    · exact hv'
  · subst hD
    refine ⟨d, by simp, hd, ?_⟩
    refine c1_core api fuel t [n₁, d, n₂] d [n₁, n₂] t' evs op0
      (versionScan_shape_ndn n₁ d n₂ hd hn₁ hn₂) rfl ?_ h3
    intro v hv hvd
    rcases List.mem_cons.1 hv with hvn | hv'
    · rw [hvn]
      exact List.mem_cons_self _ _
    · rcases List.mem_cons.1 hv' with hvd' | hv''
      · exact absurd hvd' hvd
      · rcases List.mem_singleton.1 hv'' with hvn
        rw [hvn]
        exact List.mem_cons_of_mem _ (List.mem_singleton.2 rfl)

/-- C1, witness: the amended theorem on `apiLateDone` — versions
`[nd "v1", default "v2"]`, operations completing at clock 10. -/
theorem claim_c1_witness :
    ∃ d, d ∈ ([⟨"v1", none⟩, ⟨"v2", some true⟩] : List Version) ∧
      ((d.isDefault)).isSome = true ∧
      (([Event.deleteVersion "v1", Event.sleep, Event.checkOp "op-v1",
         Event.sleep, Event.checkOp "op-v1",
         Event.deleteVersion "v2"].filter isDeleteVersionEv).length =
        ([⟨"v1", none⟩, ⟨"v2", some true⟩] : List Version).length) ∧
      ([Event.deleteVersion "v1", Event.sleep, Event.checkOp "op-v1",
         Event.sleep, Event.checkOp "op-v1",
         Event.deleteVersion "v2"].getLast? =
        some (Event.deleteVersion d.name)) ∧
      (∀ v, v ∈ ([⟨"v1", none⟩, ⟨"v2", some true⟩] : List Version) → v ≠ d →
        ∃ op, deleteVersionCall apiLateDone v = .ok op ∧
          ∃ s, s ≤ 10 ∧ checkOpCall apiLateDone s op = true) :=
  claim_c1_amended apiLateDone 2 0 [⟨"v1", none⟩, ⟨"v2", some true⟩] 10
    [Event.deleteVersion "v1", Event.sleep, Event.checkOp "op-v1",
     Event.sleep, Event.checkOp "op-v1", Event.deleteVersion "v2"] "op-v2"
    (by decide) (by simp [List.chain'_cons])
    (by simp [processModel, versionScan, deleteVersions, pollLoop, pollRound,
      deleteVersionCall, checkOpCall, delete_version, is_version_deleted,
      pyIndex, apiLateDone])

/-- C4, counterexample: against an API whose get-operation responses always
answer `done = false` — so no Operation ever reports completion
(`reportsCompletion` is false at every time for every handle) — the sweep
nevertheless runs to completion and issues the delete-Model request,
because the poller accepts the mere presence of the `done` key.  This
refutes "a delete-Model request is never issued before every
version-delete Operation has reported completion". -/
theorem claim_c4_counterexample :
    runSweep apiAlwaysFalseDone 1 =
      .ok (5, [Event.deleteVersion "v1", Event.sleep, Event.checkOp "op-v1",
        Event.deleteModel "m"]) ∧
    Event.deleteModel "m" ∈
      [Event.deleteVersion "v1", Event.sleep, Event.checkOp "op-v1",
        Event.deleteModel "m"] ∧
    (∀ t : Nat, ∀ op : String,
      reportsCompletion ⟨apiAlwaysFalseDone.opDone t op⟩ = false) := by
  refine ⟨?_, by decide, fun t op => rfl⟩
  simp [runSweep, apiAlwaysFalseDone, processModels, processModel,
    deleteVersions, deleteModels, versionScan, pollLoop, pollRound,
    deleteVersionCall, deleteModelCall, checkOpCall, delete_version,
    delete_model, is_version_deleted, pyIndex, deleteVersionByName]

/-- C4, amended: whenever the sweep runs to completion, the trace splits
into a prefix without model-delete requests followed by exactly one
model-delete request per enumerated model, in enumeration order; and every
version-delete request issued during the sweep has its operation observed
deleted by the poller (`is_version_deleted` true, i.e. a get-operation
response carrying the `done` key at any value) at some clock time not
later than the final time — so no model delete is issued before every
version-delete operation of every model was observed deleted. -/
theorem claim_c4_model_deletion_order (api : Api) (fuel tF : Nat)
    (tr : List Event) (ms : List Model) (hms : api.models = some ms)
    (h : runSweep api fuel = .ok (tF, tr)) :
    ∃ pre, tr = pre ++ ms.map (fun m => Event.deleteModel m.name) ∧
      (∀ mn, Event.deleteModel mn ∉ pre) ∧
      tr.filter isDeleteModelEv = ms.map (fun m => Event.deleteModel m.name) ∧
      (∀ vn, Event.deleteVersion vn ∈ tr →
        ∃ op, deleteVersionByName api vn = .ok op ∧
          ∃ s, s ≤ tF ∧ checkOpCall api s op = true) := by
  obtain ⟨t1, evs, defOps, pollEvs, hpm, hpl, htr⟩ :=
    runSweep_decomp api fuel tF tr ms hms h
  obtain ⟨ht1, hnm, hvn⟩ := processModels_facts api fuel ms 0 t1 evs defOps hpm
  obtain ⟨hpv, hpmm⟩ :=
    pollLoop_no_deletes (checkOpCall api) fuel t1 defOps tF pollEvs hpl
  have ht1F : t1 ≤ tF := by
    obtain ⟨k, _, hk⟩ :=
      pollLoop_time (checkOpCall api) fuel t1 defOps tF pollEvs hpl
    omega
  have hprenm : ∀ mn, Event.deleteModel mn ∉ evs ++ pollEvs := by
    intro mn hn
    rcases List.mem_append.1 hn with hn | hn
    · exact hnm mn hn
    · exact hpmm mn hn
  refine ⟨evs ++ pollEvs, htr, hprenm, ?_, ?_⟩
  · rw [htr, List.filter_append, filter_dm_eq_nil _ hprenm, filter_dm_map,
      List.nil_append]
  · intro vn hn
    rw [htr] at hn
    rcases List.mem_append.1 hn with hn | hn
    · rcases List.mem_append.1 hn with hn | hn
      · obtain ⟨op, hop, hc⟩ := hvn vn hn
        refine ⟨op, hop, ?_⟩
        rcases hc with ⟨s, hs, hdone⟩ | hmem
        · exact ⟨s, by omega, hdone⟩
        · exact pollLoop_all_done (checkOpCall api) fuel t1 defOps tF pollEvs
            hpl op hmem
      · exact absurd hn (hpv vn)
    · rcases List.mem_map.1 hn with ⟨m, _, hmeq⟩
      cases hmeq

/-- C4, witness: the theorem on the single-default mock sweep. -/
theorem claim_c4_witness :
    ∃ pre, [Event.deleteVersion "v1", Event.sleep, Event.checkOp "op-v1",
        Event.deleteModel "clf_add_to_cart"] =
        pre ++ [(⟨"clf_add_to_cart"⟩ : Model)].map
          (fun m => Event.deleteModel m.name) ∧
      (∀ mn, Event.deleteModel mn ∉ pre) ∧
      ([Event.deleteVersion "v1", Event.sleep, Event.checkOp "op-v1",
        Event.deleteModel "clf_add_to_cart"].filter isDeleteModelEv =
        [(⟨"clf_add_to_cart"⟩ : Model)].map
          (fun m => Event.deleteModel m.name)) ∧
      (∀ vn, Event.deleteVersion vn ∈
          [Event.deleteVersion "v1", Event.sleep, Event.checkOp "op-v1",
            Event.deleteModel "clf_add_to_cart"] →
        ∃ op, deleteVersionByName apiSingleDefault vn = .ok op ∧
          ∃ s, s ≤ 5 ∧ checkOpCall apiSingleDefault s op = true) :=
  claim_c4_model_deletion_order apiSingleDefault 1 5
    [Event.deleteVersion "v1", Event.sleep, Event.checkOp "op-v1",
      Event.deleteModel "clf_add_to_cart"] [⟨"clf_add_to_cart"⟩] rfl
    (by simp [runSweep, apiSingleDefault, processModels, processModel,
      deleteVersions, deleteModels, versionScan, pollLoop, pollRound,
      deleteVersionCall, deleteModelCall, checkOpCall, delete_version,
      delete_model, is_version_deleted, pyIndex, deleteVersionByName])

/-- C5, counterexample: a pending operation whose get-operation responses
forever answer `done = false` never reports completion
(`reportsCompletion` false at every time), yet the polling loop terminates
after one round — the poller removes the handle on mere presence of the
`done` key.  This refutes "if some pending Operation never reports
completion, the loop never terminates". -/
theorem claim_c5_counterexample :
    pollLoop (checkOpCall apiAlwaysFalseDone) 1 0 ["op-v1"] =
      some (5, [Event.sleep, Event.checkOp "op-v1"]) ∧
    (∀ s : Nat,
      reportsCompletion ⟨apiAlwaysFalseDone.opDone s "op-v1"⟩ = false) := by
  refine ⟨?_, fun s => rfl⟩
  simp [pollLoop, pollRound, checkOpCall, is_version_deleted,
    apiAlwaysFalseDone]

/-- C5, amended: the polling loop returns immediately (at the same clock
time) on an empty pending set; any terminating run ends at `t + 5k` for
some number of rounds `k` — the clock only ever advances in fixed 5-second
sleeps; a run terminates only once every initially-pending operation has
been observed deleted by the poller; and if some pending operation is
never observed deleted (`is_version_deleted` false at every round, i.e.
its get-operation response never carries the `done` key) the loop never
terminates — no fuel bound makes it return. -/
theorem claim_c5_poll_loop (doneAt : Nat → String → Bool) (fuel t : Nat)
    (l : List String) :
    (pollLoop doneAt fuel t [] = some (t, [])) ∧
    (∀ t' evs, pollLoop doneAt fuel t l = some (t', evs) →
      ∃ k, k ≤ fuel ∧ t' = t + 5 * k) ∧
    (∀ t' evs, pollLoop doneAt fuel t l = some (t', evs) →
      ∀ x, x ∈ l → ∃ s, s ≤ t' ∧ doneAt s x = true) ∧
    (∀ x, x ∈ l → (∀ s, doneAt s x = false) →
      pollLoop doneAt fuel t l = none) :=
  ⟨pollLoop_nil doneAt fuel t,
   fun t' evs h => pollLoop_time doneAt fuel t l t' evs h,
   fun t' evs h x hx => pollLoop_all_done doneAt fuel t l t' evs h x hx,
   fun x hx hnever => pollLoop_never_done doneAt x hnever fuel t l hx⟩

/-- C5, witness: a never-completing operation keeps the loop running at
fuel 3, and a completing run ends at `0 + 5·k`. -/
theorem claim_c5_witness :
    pollLoop (fun _ _ => false) 3 0 ["a"] = none ∧
    (∃ k, k ≤ 2 ∧ 5 = 0 + 5 * k) :=
  ⟨(claim_c5_poll_loop (fun _ _ => false) 3 0 ["a"]).2.2.2 "a" (by decide)
      (fun _ => rfl),
   (claim_c5_poll_loop (fun _ _ => true) 2 0 ["a"]).2.1 5
      [Event.sleep, Event.checkOp "a"] (by simp [pollLoop, pollRound])⟩

/-- C8: `delete_version` on a well-formed response returns the response's
`"name"` field as the operation handle; `delete_model` returns nothing
(unit) on the error-free path; and in any completed sweep every
operation-status check happens before the model-deletion suffix of the
trace — model-delete operations are fire-and-forget, never polled. -/
theorem claim_c8_contract :
    (∀ vn : String, ∀ r : DeleteResponse, ∀ op, r.error = none →
      r.name = some op → (delete_version vn r).2 = .ok op) ∧
    (∀ mn : String, ∀ r : DeleteResponse, r.error = none →
      (delete_model mn r).2 = .ok ()) ∧
    (∀ api : Api, ∀ fuel tF : Nat, ∀ tr : List Event, ∀ ms : List Model,
      api.models = some ms → runSweep api fuel = .ok (tF, tr) →
      ∃ pre, tr = pre ++ ms.map (fun m => Event.deleteModel m.name) ∧
        ∀ op, Event.checkOp op ∈ tr → Event.checkOp op ∈ pre) := by
  refine ⟨?_, ?_, ?_⟩
  · intro vn r op he hn
    simp [delete_version, he, hn]
  · intro mn r he
    simp [delete_model, he]
  · intro api fuel tF tr ms hms h
    obtain ⟨t1, evs, defOps, pollEvs, hpm, hpl, htr⟩ :=
      runSweep_decomp api fuel tF tr ms hms h
    refine ⟨evs ++ pollEvs, htr, ?_⟩
    intro op hop
    rw [htr] at hop
    rcases List.mem_append.1 hop with hop | hop
    · exact hop
    · rcases List.mem_map.1 hop with ⟨m, _, hmeq⟩
      cases hmeq

/-- C8, witness: the contract at concrete responses and the single-default
mock sweep. -/
theorem claim_c8_witness :
    (delete_version "v" ⟨none, some "op-v"⟩).2 = .ok "op-v" ∧
    (delete_model "m" ⟨none, none⟩).2 = .ok () ∧
    (∃ pre, [Event.deleteVersion "v1", Event.sleep, Event.checkOp "op-v1",
        Event.deleteModel "clf_add_to_cart"] =
        pre ++ [(⟨"clf_add_to_cart"⟩ : Model)].map
          (fun m => Event.deleteModel m.name) ∧
      ∀ op, Event.checkOp op ∈
          [Event.deleteVersion "v1", Event.sleep, Event.checkOp "op-v1",
            Event.deleteModel "clf_add_to_cart"] →
        Event.checkOp op ∈ pre) :=
  ⟨claim_c8_contract.1 "v" ⟨none, some "op-v"⟩ "op-v" rfl rfl,
   claim_c8_contract.2.1 "m" ⟨none, none⟩ rfl,
   claim_c8_contract.2.2 apiSingleDefault 1 5
     [Event.deleteVersion "v1", Event.sleep, Event.checkOp "op-v1",
       Event.deleteModel "clf_add_to_cart"] [⟨"clf_add_to_cart"⟩] rfl
     (by simp [runSweep, apiSingleDefault, processModels, processModel,
       deleteVersions, deleteModels, versionScan, pollLoop, pollRound,
       deleteVersionCall, deleteModelCall, checkOpCall, delete_version,
       delete_model, is_version_deleted, pyIndex, deleteVersionByName])⟩

end MLSweep
